import Mathlib

/-!
Verification of the YouTube comment summariser core (src/youtube.py).

The embedding models the three core functions of the source file:

* `get_video_id`  — URL-to-video-id resolution (the regex search
  `re.search(r"v=([^&]+)", url)` is modelled by `vmatch`/`startCap`, which
  return the capture of the leftmost position where the character v is
  followed by = and at least one character other than the ampersand; the
  short-link branch `url.split("/")[-1].split("?")[0]` is modelled by
  `shortExtract` via `splitOnChar`, whose semantics match Python str.split
  with a one-character separator).
* `fetch_comments` — the bounded comment loop.  The lazy generator
  `downloader.get_comments(video_id, sort_by)` is modelled as a finite list
  of `SourceEvent`s: each pull of the generator either yields a comment
  record (a dict with a text field) or raises a fault carrying a message.
  `commentLoop` mirrors the for/break loop and also counts how many events
  were pulled, so that early termination of the lazy producer is provable.
* `summarize_comments_with_groq` — the remote completion call
  `client.chat.completions.create(...)` is modelled as a function
  `remote : GroqRequest → Except String String` (fault message or generated
  content); the returned trace lists every request actually sent, so that
  "the remote collaborator is never invoked" is a provable statement.

A Python string is modelled as a Lean `String`; `None`-or-empty inputs are
modelled as the empty string.  Python str.lower is modelled by mapping
`Char.toLower` (the fault messages involved are ASCII).  The two library
constructors (`YoutubeCommentDownloader()`, `Groq(api_key=...)`) are pure
object constructions and are modelled as non-faulting.
-/

/-- Python substring test `needle in hay`, on the character lists. -/
def containsSub (needle : List Char) : List Char → Bool
  | [] => needle.isEmpty
  | c :: t => needle.isPrefixOf (c :: t) || containsSub needle t

/-- Python `s.lower()` (ASCII). -/
def lowerStr (s : String) : String := ⟨s.data.map Char.toLower⟩

/-- Python `s.split(sep)[ ... ]` building block: split at every occurrence of
a one-character separator; like Python str.split it never returns an empty
list and keeps empty fragments. -/
def splitOnChar (sep : Char) : List Char → List (List Char)
  | [] => [[]]
  | c :: rest =>
    let r := splitOnChar sep rest
    if c = sep then [] :: r
    else
      match r with
      | [] => [[c]]
      | h :: t => (c :: h) :: t

/-- The short-link branch `url.split("/")[-1].split("?")[0]`.  The defaults
of `getLastD`/`headD` are never reached because `splitOnChar` never returns
an empty list, matching Python where `[-1]` and `[0]` never fail here. -/
def shortExtract (l : List Char) : List Char :=
  (splitOnChar '?' ((splitOnChar '/' l).getLastD [])).headD []

/-- One attempted match of `v=([^&]+)` at the head of the list: succeeds when
the list starts with v, = and at least one character other than the
ampersand, capturing greedily up to the next ampersand or the end. -/
def startCap (l : List Char) : Option (List Char) :=
  match l with
  | c :: d :: rest =>
    if c = 'v' ∧ d = '=' then
      let cap := rest.takeWhile (fun x => x ≠ '&')
      if cap = [] then none else some cap
    else none
  | _ => none

/-- `re.search(r"v=([^&]+)", url)`: the capture at the leftmost position
where an attempted match succeeds. -/
def vmatch : List Char → Option (List Char)
  | [] => none
  | c :: rest =>
    match startCap (c :: rest) with
    | some cap => some cap
    | none => vmatch rest

/-- `get_video_id(url)` from src/youtube.py. -/
def get_video_id (url : String) : Option String :=
  if url.data = [] then none
  else if containsSub "youtu.be".data url.data then
    some ⟨shortExtract url.data⟩
  else
    match vmatch url.data with
    | some cap => some ⟨cap⟩
    | none => none

/-- `estimate_tokens(text)` from src/youtube.py (4 chars per token). -/
def estimate_tokens (text : String) : Nat := text.length / 4

/-! ## Comment fetching -/

/-- A record produced by the comment generator: a dict exposing a text
field (`comment['text']`). -/
structure CommentRecord where
  text : String

/-- One pull of the lazy generator: either a comment record is yielded or a
fault is raised with a message. -/
inductive SourceEvent where
  | record (c : CommentRecord)
  | fault (msg : String)

/-- Outcome of the for-loop over the generator: normal completion (by
exhaustion or by break) with the accumulated texts, or a fault.  The second
component counts how many events were pulled from the generator. -/
inductive LoopOutcome where
  | done (acc : List String) (consumed : Nat)
  | faulted (msg : String) (consumed : Nat)

/-- Failure message for zero collected comments. -/
def noCommentsMsg : String :=
  "No comments found. The video might have comments disabled or be private."

/-- Failure message when the source fault mentions Video unavailable. -/
def videoUnavailableMsg : String := "Video not found or is private/unavailable."

/-- Failure message when the source fault mentions disabled comments. -/
def commentsDisabledMsg : String := "Comments are disabled for this video."

/-- The except-branch of `fetch_comments`: classify a source fault message. -/
def classifyFetchFault (error_msg : String) : String :=
  if containsSub "Video unavailable".data error_msg.data then videoUnavailableMsg
  else if containsSub "comments are disabled".data (lowerStr error_msg).data then
    commentsDisabledMsg
  else "Error fetching comments: " ++ error_msg

/-- The loop `for comment in comments_gen: append; if len >= max: break`,
with an event counter. -/
def commentLoop (max_comments : Nat) :
    List SourceEvent → List String → Nat → LoopOutcome
  | [], acc, consumed => LoopOutcome.done acc consumed
  | SourceEvent.record c :: rest, acc, consumed =>
    let acc' := acc ++ [c.text]
    if max_comments ≤ acc'.length then LoopOutcome.done acc' (consumed + 1)
    else commentLoop max_comments rest acc' (consumed + 1)
  | SourceEvent.fault msg :: _, _, consumed => LoopOutcome.faulted msg (consumed + 1)

/-- `fetch_comments(video_id, max_comments, sort_by)` from src/youtube.py.
The generator `downloader.get_comments(video_id, sort_by=sort_by)` is passed
in as the event list `comments_gen`; `video_id` and `sort_by` only select
which sequence the external source produces. -/
def fetch_comments (comments_gen : List SourceEvent) (max_comments : Nat) :
    List String × Option String :=
  match commentLoop max_comments comments_gen [] 0 with
  | LoopOutcome.done comments_list _ =>
    if comments_list.isEmpty then ([], some noCommentsMsg)
    else (comments_list, none)
  | LoopOutcome.faulted msg _ => ([], some (classifyFetchFault msg))

/-- Number of generator events pulled by a `fetch_comments` run. -/
def fetchConsumed (comments_gen : List SourceEvent) (max_comments : Nat) : Nat :=
  match commentLoop max_comments comments_gen [] 0 with
  | LoopOutcome.done _ n => n
  | LoopOutcome.faulted _ n => n

/-! ## Summarizing -/

/-- Failure message for a credential fault. -/
def invalidKeyMsg : String := "Invalid API key. Check your Groq API credentials."

/-- Failure message for a rate-limit fault. -/
def rateLimitMsg : String := "Rate limit exceeded. Wait a moment and try again."

/-- Failure message for an unknown-model fault. -/
def modelNotFoundMsg (model_name : String) : String :=
  "Model \x27" ++ model_name ++ "\x27 not found or not accessible."

/-- Local failure result for an empty comment batch. -/
def noCommentsToSummarizeMsg : String := "No comments to summarize."

/-- The except-branch of `summarize_comments_with_groq`: classify an API
fault message. -/
def classifyGroqFault (model_name error_msg : String) : String :=
  if containsSub "authentication".data (lowerStr error_msg).data
      || containsSub "api key".data (lowerStr error_msg).data then invalidKeyMsg
  else if containsSub "rate limit".data (lowerStr error_msg).data then rateLimitMsg
  else if containsSub "model".data (lowerStr error_msg).data then
    modelNotFoundMsg model_name
  else "API Error: " ++ error_msg

/-- The fixed prompt template up to the optional instruction block. -/
def promptHeader : String :=
  "You are a professional content analyst. Analyze these YouTube comments and provide:\n\n1. **Main Themes** - Key topics discussed (3-5 bullet points)\n2. **Sentiment Breakdown** - Overall tone (positive/negative/mixed) with percentages\n3. **Notable Insights** - Interesting or recurring observations\n4. **Top Concerns/Praise** - What viewers loved or complained about most\n"

/-- The rendered prompt: header, optional instruction block, and the comment
texts each truncated to 200 characters, joined with newlines. -/
def build_prompt (comments : List String) (instructions : String) : String :=
  let instruction_text :=
    if instructions.isEmpty then "" else "\n\nAdditional Instructions: " ++ instructions
  promptHeader ++ instruction_text ++ "\n\nComments to analyze:\n"
    ++ String.intercalate "\n" (comments.map (fun comment => "- " ++ ⟨comment.data.take 200⟩))
    ++ "\n"

/-- One request to `client.chat.completions.create`: the credential the
client was built with, the model, the single user message, and the fixed
sampling parameters. -/
structure GroqRequest where
  api_key : String
  model : String
  content : String
  temperature : ℚ
  max_tokens : Nat

/-- The request `summarize_comments_with_groq` sends (temperature 0.5,
max_tokens 1500). -/
def mkGroqRequest (groq_api_key model_name : String) (comments : List String)
    (instructions : String) : GroqRequest :=
  ⟨groq_api_key, model_name, build_prompt comments instructions, 1 / 2, 1500⟩

/-- `summarize_comments_with_groq(groq_api_key, model_name, comments,
instructions)` from src/youtube.py.  `remote` is the remote completion
collaborator: it returns either the generated content
(`chat_completion.choices[0].message.content`) or a fault message.  The
second component of the result is the list of requests actually sent. -/
def summarize_comments_with_groq (remote : GroqRequest → Except String String)
    (groq_api_key model_name : String) (comments : List String)
    (instructions : String) :
    (Option String × Option String) × List GroqRequest :=
  if comments.isEmpty then ((none, some noCommentsToSummarizeMsg), [])
  else
    let req := mkGroqRequest groq_api_key model_name comments instructions
    match remote req with
    | Except.ok content => ((some content, none), [req])
    | Except.error e => ((none, some (classifyGroqFault model_name e)), [req])

/-! ## Loop lemmas for the fetcher -/

/-- On a fault-free source long enough to fill the cap, the loop stops with
exactly the cap reached: it returns the accumulated texts extended by the
next `max_comments - acc.length` record texts and pulls exactly that many
further events. -/
theorem commentLoop_records (max_comments : Nat) :
    ∀ (records : List CommentRecord) (acc : List String) (n : Nat),
      acc.length < max_comments → max_comments ≤ acc.length + records.length →
      commentLoop max_comments (records.map SourceEvent.record) acc n
        = LoopOutcome.done
            (acc ++ (records.take (max_comments - acc.length)).map CommentRecord.text)
            (n + (max_comments - acc.length)) := by
  intro records
  induction records with
  | nil =>
    intro acc n hlt hle
    simp only [List.length_nil, Nat.add_zero] at hle
    omega
  | cons r rs ih =>
    intro acc n hlt hle
    simp only [List.map_cons, commentLoop, List.length_append, List.length_cons,
      List.length_nil, Nat.zero_add]
    by_cases hstop : max_comments ≤ acc.length + 1
    · rw [if_pos hstop]
      have hk : max_comments - acc.length = 1 := by omega
      rw [hk]
      simp [List.take]
    · rw [if_neg hstop]
      rw [ih (acc ++ [r.text]) (n + 1)
        (by simp only [List.length_append, List.length_cons, List.length_nil]; omega)
        (by simp only [List.length_append, List.length_cons, List.length_nil] at *; omega)]
      have hk : max_comments - acc.length = (max_comments - (acc.length + 1)) + 1 := by
        omega
      rw [hk, List.take_succ_cons, List.map_cons]
      simp only [List.length_append, List.length_cons, List.length_nil, Nat.zero_add,
        List.append_assoc, List.singleton_append]
      have hn : n + 1 + (max_comments - (acc.length + 1))
          = n + (max_comments - (acc.length + 1) + 1) := by omega
      rw [hn]

/-- If the loop completes normally starting from an accumulator below the
cap, the result never exceeds the cap. -/
theorem commentLoop_done_length (max_comments : Nat) :
    ∀ (source : List SourceEvent) (acc : List String) (n : Nat),
      acc.length < max_comments →
      ∀ res k, commentLoop max_comments source acc n = LoopOutcome.done res k →
        res.length ≤ max_comments := by
  intro source
  induction source with
  | nil =>
    intro acc n hlt res k heq
    cases heq
    omega
  | cons ev rest ih =>
    intro acc n hlt res k heq
    cases ev with
    | record c =>
      simp only [commentLoop] at heq
      by_cases hstop : max_comments ≤ (acc ++ [c.text]).length
      · rw [if_pos hstop] at heq
        cases heq
        simp only [List.length_append, List.length_cons, List.length_nil] at *
        omega
      · rw [if_neg hstop] at heq
        exact ih (acc ++ [c.text]) (n + 1)
          (by simp only [List.length_append, List.length_cons, List.length_nil] at *
              omega) res k heq
    | fault msg =>
      simp only [commentLoop] at heq
      exact absurd heq (by simp)

/-! ## Claim theorems: fetcher and summarizer -/

/-- C2: a source lazily yielding strictly more than `max_comments` records
(with `max_comments > 0`) produces a batch of length exactly `max_comments`,
no failure, and exactly `max_comments` events are pulled from the source, so
no record beyond the `max_comments`-th is consumed. -/
theorem fetch_early_termination (records : List CommentRecord) (max_comments : Nat)
    (h1 : 0 < max_comments) (h2 : max_comments < records.length) :
    (fetch_comments (records.map SourceEvent.record) max_comments).1.length
        = max_comments
    ∧ (fetch_comments (records.map SourceEvent.record) max_comments).2 = none
    ∧ fetchConsumed (records.map SourceEvent.record) max_comments = max_comments := by
  have hl := commentLoop_records max_comments records [] 0
    (by simpa using h1)
    (by simp only [List.length_nil, Nat.zero_add]; omega)
  simp only [List.length_nil, Nat.sub_zero, List.nil_append, Nat.zero_add] at hl
  have hne : ((records.take max_comments).map CommentRecord.text).isEmpty = false := by
    rw [List.isEmpty_eq_false]
    intro hcon
    have hlen := congrArg List.length hcon
    simp only [List.length_map, List.length_take, List.length_nil] at hlen
    omega
  refine ⟨?_, ?_, ?_⟩
  · simp only [fetch_comments, hl, hne, Bool.false_eq_true, if_false]
    simp only [List.length_map, List.length_take]
    omega
  · simp only [fetch_comments, hl, hne, Bool.false_eq_true, if_false]
  · simp only [fetchConsumed, hl]

/-- C2 witness: three records, cap two. -/
theorem fetch_early_termination_witness :
    (fetch_comments [SourceEvent.record ⟨"a"⟩, SourceEvent.record ⟨"b"⟩,
        SourceEvent.record ⟨"c"⟩] 2).1.length = 2
    ∧ (fetch_comments [SourceEvent.record ⟨"a"⟩, SourceEvent.record ⟨"b"⟩,
        SourceEvent.record ⟨"c"⟩] 2).2 = none
    ∧ fetchConsumed [SourceEvent.record ⟨"a"⟩, SourceEvent.record ⟨"b"⟩,
        SourceEvent.record ⟨"c"⟩] 2 = 2 :=
  fetch_early_termination [⟨"a"⟩, ⟨"b"⟩, ⟨"c"⟩] 2 (by decide) (by decide)

/-- C4: with `max_comments > 0` the batch length never exceeds
`max_comments`; a successful fetch (no failure reason) has at least one
comment; and a run whose loop completes having collected zero items yields
the no-comments failure reason. -/
theorem fetch_batch_invariants (source : List SourceEvent) (max_comments : Nat)
    (h : 0 < max_comments) :
    (fetch_comments source max_comments).1.length ≤ max_comments
    ∧ ((fetch_comments source max_comments).2 = none →
        1 ≤ (fetch_comments source max_comments).1.length)
    ∧ (∀ k, commentLoop max_comments source [] 0 = LoopOutcome.done [] k →
        (fetch_comments source max_comments).2 = some noCommentsMsg) := by
  cases hl : commentLoop max_comments source [] 0 with
  | done acc k0 =>
    by_cases he : acc.isEmpty
    · refine ⟨?_, ?_, ?_⟩ <;> simp [fetch_comments, hl, he]
    · have hlen : acc.length ≤ max_comments :=
        commentLoop_done_length max_comments source [] 0 (by simpa using h) acc k0 hl
      have hne : acc ≠ [] := by simpa using he
      refine ⟨?_, ?_, ?_⟩
      · simp only [fetch_comments, hl, he, Bool.false_eq_true, if_false]
        exact hlen
      · intro _
        simp only [fetch_comments, hl, he, Bool.false_eq_true, if_false]
        have : 0 < acc.length := List.length_pos.mpr hne
        omega
      · intro k hk
        injection hk with h1 h2
        exact absurd h1 hne
  | faulted msg k0 =>
    refine ⟨?_, ?_, ?_⟩ <;> simp [fetch_comments, hl]

/-- C4 witness: the empty source with cap one collects zero items and
reports the no-comments reason. -/
theorem fetch_batch_invariants_witness :
    0 < 1 ∧ (fetch_comments ([] : List SourceEvent) 1).2 = some noCommentsMsg :=
  ⟨Nat.one_pos, (fetch_batch_invariants [] 1 Nat.one_pos).2.2 0 rfl⟩

/-- C9: whenever a fetch reports a failure reason, the returned batch is the
empty list: partially collected comments are discarded. -/
theorem fetch_error_empty_batch (source : List SourceEvent) (max_comments : Nat)
    (err : String) (h : (fetch_comments source max_comments).2 = some err) :
    (fetch_comments source max_comments).1 = [] := by
  cases hl : commentLoop max_comments source [] 0 with
  | done acc k0 =>
    by_cases he : acc.isEmpty
    · simp [fetch_comments, hl, he]
    · simp [fetch_comments, hl, he] at h
  | faulted msg k0 => simp [fetch_comments, hl]

/-- C9 witness: a source that faults after one collected comment returns the
empty batch together with the classified reason. -/
theorem fetch_error_empty_batch_witness :
    (fetch_comments [SourceEvent.record ⟨"hi"⟩, SourceEvent.fault "boom"] 5).1 = [] :=
  fetch_error_empty_batch [SourceEvent.record ⟨"hi"⟩, SourceEvent.fault "boom"] 5
    "Error fetching comments: boom" (by decide)

/-- The closed set of fetch failure reasons of section 7 of the spec. -/
def CategorizedFetchReason (o : Option String) : Prop :=
  o = none ∨ o = some noCommentsMsg ∨ o = some videoUnavailableMsg
    ∨ o = some commentsDisabledMsg
    ∨ ∃ m, o = some ("Error fetching comments: " ++ m)

/-- The closed set of summarize failure reasons of section 7 of the spec,
together with the local empty-batch reason. -/
def CategorizedSummarizeReason (model_name : String) (o : Option String) : Prop :=
  o = none ∨ o = some noCommentsToSummarizeMsg ∨ o = some invalidKeyMsg
    ∨ o = some rateLimitMsg ∨ o = some (modelNotFoundMsg model_name)
    ∨ ∃ m, o = some ("API Error: " ++ m)

/-- C1: for every source behaviour and every remote behaviour, the fetcher
and the summarizer return (they are total functions of the collaborator
outcomes, so no fault propagates) and any reported failure is one of the
categorized human-readable reasons. -/
theorem faults_always_categorized (source : List SourceEvent) (max_comments : Nat)
    (remote : GroqRequest → Except String String)
    (groq_api_key model_name : String) (comments : List String)
    (instructions : String) :
    CategorizedFetchReason (fetch_comments source max_comments).2
    ∧ CategorizedSummarizeReason model_name
        ((summarize_comments_with_groq remote groq_api_key model_name comments
            instructions).1).2 := by
  constructor
  · cases hl : commentLoop max_comments source [] 0 with
    | done acc k0 =>
      by_cases he : acc.isEmpty
      · right; left; simp [fetch_comments, hl, he]
      · left; simp [fetch_comments, hl, he]
    | faulted msg k0 =>
      have hthis : (fetch_comments source max_comments).2
          = some (classifyFetchFault msg) := by simp [fetch_comments, hl]
      rw [CategorizedFetchReason, hthis, classifyFetchFault]
      split_ifs with hv hd
      · right; right; left; rfl
      · right; right; right; left; rfl
      · right; right; right; right; exact ⟨msg, rfl⟩
  · by_cases he : comments.isEmpty
    · right; left
      simp [summarize_comments_with_groq, he]
    · cases hr : remote (mkGroqRequest groq_api_key model_name comments instructions) with
      | ok content =>
        left
        simp [summarize_comments_with_groq, he, hr]
      | error e =>
        have hthis : ((summarize_comments_with_groq remote groq_api_key model_name
            comments instructions).1).2 = some (classifyGroqFault model_name e) := by
          simp [summarize_comments_with_groq, he, hr]
        rw [CategorizedSummarizeReason, hthis, classifyGroqFault]
        split_ifs with ha hrl hm
        · right; right; left; rfl
        · right; right; right; left; rfl
        · right; right; right; right; left; rfl
        · right; right; right; right; right; exact ⟨e, rfl⟩

/-- C8: an empty comment batch returns the local nothing-to-summarize
failure immediately and the list of requests sent to the remote collaborator
is empty: the remote collaborator is never invoked. -/
theorem summarize_empty_batch_no_call (remote : GroqRequest → Except String String)
    (groq_api_key model_name instructions : String) :
    summarize_comments_with_groq remote groq_api_key model_name [] instructions
      = ((none, some noCommentsToSummarizeMsg), []) := rfl

/-- C3 counterexample: a fault message that contains "rate limit" (any case)
but also mentions the api key is mapped to the invalid-credential reason,
not the rate-limit reason, because the credential check runs first. -/
theorem summarize_rate_limit_shadowed_cex :
    containsSub "rate limit".data
      (lowerStr "Rate limit hit for this api key").data = true
    ∧ ((summarize_comments_with_groq
          (fun _ => Except.error "Rate limit hit for this api key")
          "key" "model-x" ["c"] "").1).2 = some invalidKeyMsg
    ∧ invalidKeyMsg ≠ rateLimitMsg := by
  refine ⟨by decide, by decide, by decide⟩

/-- C3 as amended: a fault whose message contains "rate limit" in any letter
case is mapped to the rate-limit reason, provided the message contains
neither "authentication" nor "api key" (any case), which the credential
check would match first. -/
theorem summarize_rate_limit_reason (remote : GroqRequest → Except String String)
    (groq_api_key model_name instructions msg : String) (comments : List String)
    (h0 : comments ≠ [])
    (h1 : remote (mkGroqRequest groq_api_key model_name comments instructions)
        = Except.error msg)
    (h2 : containsSub "rate limit".data (lowerStr msg).data = true)
    (h3 : containsSub "authentication".data (lowerStr msg).data = false)
    (h4 : containsSub "api key".data (lowerStr msg).data = false) :
    ((summarize_comments_with_groq remote groq_api_key model_name comments
        instructions).1).2 = some rateLimitMsg := by
  have he : comments.isEmpty = false := by simpa using h0
  have hthis : ((summarize_comments_with_groq remote groq_api_key model_name
      comments instructions).1).2 = some (classifyGroqFault model_name msg) := by
    simp [summarize_comments_with_groq, he, h1]
  rw [hthis, classifyGroqFault, h2, h3, h4]
  simp

/-- C3 amended witness: a pure rate-limit fault on a one-comment batch. -/
theorem summarize_rate_limit_reason_witness :
    ((summarize_comments_with_groq (fun _ => Except.error "RATE LIMIT reached")
        "key" "model-x" ["c"] "").1).2 = some rateLimitMsg :=
  summarize_rate_limit_reason (fun _ => Except.error "RATE LIMIT reached")
    "key" "model-x" "" "RATE LIMIT reached" ["c"]
    (by decide) rfl (by decide) (by decide) (by decide)

/-! ## Lemmas about the substring test -/

/-- A list is a prefix of itself extended by anything. -/
theorem isPrefixOf_append_self : ∀ (n b : List Char), n.isPrefixOf (n ++ b) = true
  | [], _ => by simp [List.isPrefixOf]
  | c :: t, b => by
    simp only [List.cons_append, List.isPrefixOf, Bool.and_eq_true, beq_self_eq_true,
      true_and]
    exact isPrefixOf_append_self t b

/-- A prefix is found by the substring test. -/
theorem containsSub_of_isPrefixOf {n l : List Char} (h : n.isPrefixOf l = true) :
    containsSub n l = true := by
  cases l with
  | nil =>
    cases n with
    | nil => rfl
    | cons c t => simp [List.isPrefixOf] at h
  | cons c t => simp [containsSub, h]

/-- The substring test finds a needle occurring anywhere. -/
theorem containsSub_of_middle (n a b : List Char) :
    containsSub n (a ++ (n ++ b)) = true := by
  induction a with
  | nil => exact containsSub_of_isPrefixOf (isPrefixOf_append_self n b)
  | cons c a' ih => simp [containsSub, ih]

/-! ## Lemmas about the regex search -/

/-- An attempted match fails unless the first two characters are v and =. -/
theorem startCap_none_of_pair (c d : Char) (r : List Char)
    (h : ¬(c = 'v' ∧ d = '=')) : startCap (c :: d :: r) = none := by
  simp [startCap, h]

/-- The search skips a region in which no attempted match succeeds. -/
theorem vmatch_append (a l : List Char)
    (h : ∀ a1 a2, a = a1 ++ a2 → a2 ≠ [] → startCap (a2 ++ l) = none) :
    vmatch (a ++ l) = vmatch l := by
  induction a with
  | nil => rfl
  | cons c a' ih =>
    have h0 : startCap ((c :: a') ++ l) = none := h [] (c :: a') rfl (by simp)
    rw [List.cons_append] at h0
    rw [List.cons_append, vmatch, h0]
    exact ih (fun a1 a2 heq hne => h (c :: a1) a2 (by rw [heq, List.cons_append]) hne)

/-- No attempted match can start inside `pre ++ "watch?"` when `pre` does not
contain the two-character needle v=. -/
theorem watch_no_veq (pre : List Char)
    (hpre : containsSub ['v', '='] pre = false) :
    ∀ a1 a2, pre ++ ['w', 'a', 't', 'c', 'h', '?'] = a1 ++ ('v' :: '=' :: a2) → False := by
  intro a1 a2 heq
  rcases List.append_eq_append_iff.mp heq with ⟨x, hx1, hx2⟩ | ⟨x, hx1, hx2⟩
  · have hv : 'v' ∈ (['w', 'a', 't', 'c', 'h', '?'] : List Char) := by
      rw [hx2]
      exact List.mem_append.mpr (Or.inr (List.mem_cons_self _ _))
    exact absurd hv (by decide)
  · match x, hx2 with
    | [], hx2 =>
      injection hx2 with h1 _
      exact absurd h1 (by decide)
    | [y], hx2 =>
      injection hx2 with h1 hrest
      injection hrest with h2 _
      exact absurd h2 (by decide)
    | y :: z :: x', hx2 =>
      injection hx2 with h1 hrest
      injection hrest with h2 h3
      subst h1
      subst h2
      have hmid : containsSub ['v', '='] (a1 ++ ('v' :: '=' :: x')) = true :=
        containsSub_of_middle ['v', '='] a1 x'
      rw [← hx1, hpre] at hmid
      exact absurd hmid (by decide)

/-- C5: a canonical-link URL — anything of the shape
`pre ++ "watch?v=" ++ id ++ suf` that is not a short link (no youtu.be
marker), whose earlier part contains no v= needle, with a nonempty
ampersand-free identifier and a suffix that is empty or starts with the
ampersand — resolves to exactly the characters bound to the v parameter. -/
theorem getVideoId_canonical (pre id suf : String)
    (hyb : containsSub "youtu.be".data (pre ++ "watch?v=" ++ id ++ suf).data = false)
    (hpre : containsSub ['v', '='] pre.data = false)
    (hid : id.data ≠ [])
    (hamp : ∀ c ∈ id.data, c ≠ '&')
    (hsuf : suf.data.head? = some '&' ∨ suf.data = []) :
    get_video_id (pre ++ "watch?v=" ++ id ++ suf) = some id := by
  have hdata : (pre ++ "watch?v=" ++ id ++ suf).data
      = (pre.data ++ ['w', 'a', 't', 'c', 'h', '?'])
          ++ ('v' :: '=' :: (id.data ++ suf.data)) := by
    have hw : ("watch?v=" : String).data
        = ['w', 'a', 't', 'c', 'h', '?', 'v', '='] := rfl
    simp only [String.data_append, hw, List.append_assoc, List.cons_append,
      List.nil_append]
  have htake : (id.data ++ suf.data).takeWhile (fun x => x ≠ '&') = id.data := by
    rcases hsuf with h | h
    · obtain ⟨r, hr⟩ : ∃ r, suf.data = '&' :: r := by
        cases hs : suf.data with
        | nil => rw [hs] at h; exact absurd h (by simp)
        | cons x r =>
          rw [hs] at h
          simp only [List.head?_cons, Option.some.injEq] at h
          exact ⟨r, by rw [h]⟩
      rw [hr, List.takeWhile_append_of_pos (fun a ha => by simpa using hamp a ha)]
      simp [List.takeWhile_cons]
    · rw [h]
      rw [List.takeWhile_append_of_pos (fun a ha => by simpa using hamp a ha)]
      simp
  have hvm : vmatch ((pre.data ++ ['w', 'a', 't', 'c', 'h', '?'])
      ++ ('v' :: '=' :: (id.data ++ suf.data))) = some id.data := by
    rw [vmatch_append]
    · have hsc : startCap ('v' :: '=' :: (id.data ++ suf.data)) = some id.data := by
        show (if ('v' : Char) = 'v' ∧ ('=' : Char) = '=' then
            let cap := (id.data ++ suf.data).takeWhile (fun x => x ≠ '&')
            if cap = [] then none else some cap
          else none) = some id.data
        rw [if_pos ⟨rfl, rfl⟩]
        show (if (id.data ++ suf.data).takeWhile (fun x => x ≠ '&') = [] then none
            else some ((id.data ++ suf.data).takeWhile (fun x => x ≠ '&')))
          = some id.data
        rw [htake, if_neg hid]
      rw [vmatch, hsc]
    · intro a1 a2 heq hne
      match a2, hne with
      | [c], _ =>
        exact startCap_none_of_pair c 'v' ('=' :: (id.data ++ suf.data))
          (fun hcd => absurd hcd.2 (by decide))
      | c :: d :: r, _ =>
        by_cases hcd : c = 'v' ∧ d = '='
        · obtain ⟨hc, hd⟩ := hcd
          subst hc
          subst hd
          exact (watch_no_veq pre.data hpre a1 r heq).elim
        · exact startCap_none_of_pair c d
            (r ++ ('v' :: '=' :: (id.data ++ suf.data))) hcd
  have hne0 : (pre ++ "watch?v=" ++ id ++ suf).data ≠ [] := by
    rw [hdata]; simp
  have hyb' : ¬(containsSub "youtu.be".data
      (pre ++ "watch?v=" ++ id ++ suf).data = true) := by
    rw [hyb]
    simp
  rw [get_video_id, if_neg hne0, if_neg hyb', hdata, hvm]

/-- C5 witness: the scenario URL of the spec. -/
theorem getVideoId_canonical_witness :
    get_video_id "https://www.youtube.com/watch?v=abc123&t=30" = some "abc123" := by
  have heq : ("https://www.youtube.com/watch?v=abc123&t=30" : String)
      = "https://www.youtube.com/" ++ "watch?v=" ++ "abc123" ++ "&t=30" := by decide
  rw [heq]
  exact getVideoId_canonical "https://www.youtube.com/" "abc123" "&t=30"
    (by decide) (by decide) (by decide) (by decide) (by decide)

/-! ## Lemmas about the split-based short-link extraction -/

/-- Like Python str.split, `splitOnChar` never produces an empty list. -/
theorem splitOnChar_ne_nil (sep : Char) : ∀ l, splitOnChar sep l ≠ [] := by
  intro l
  induction l with
  | nil => simp [splitOnChar]
  | cons c rest ih =>
    simp only [splitOnChar]
    by_cases hc : c = sep
    · rw [if_pos hc]; simp
    · rw [if_neg hc]
      cases hr : splitOnChar sep rest with
      | nil => simp
      | cons h t => simp

/-- A fragment free of the separator is returned whole. -/
theorem splitOnChar_all_ne (sep : Char) :
    ∀ (b : List Char), (∀ c ∈ b, c ≠ sep) → splitOnChar sep b = [b] := by
  intro b
  induction b with
  | nil => intro _; simp [splitOnChar]
  | cons c t ih =>
    intro h
    have hc : c ≠ sep := h c (List.mem_cons_self _ _)
    simp only [splitOnChar]
    rw [if_neg hc, ih (fun x hx => h x (List.mem_cons_of_mem _ hx))]

/-- Splitting a list that contains a separator gives at least two pieces. -/
theorem splitOnChar_length2 (sep : Char) (a b : List Char) :
    2 ≤ (splitOnChar sep (a ++ sep :: b)).length := by
  induction a with
  | nil =>
    simp only [List.nil_append, splitOnChar]
    rw [if_true]
    have := List.length_pos.mpr (splitOnChar_ne_nil sep b)
    simp only [List.length_cons]
    omega
  | cons c a' ih =>
    simp only [List.cons_append, splitOnChar]
    by_cases hc : c = sep
    · rw [if_pos hc]
      simp only [List.length_cons]
      exact le_trans ih (Nat.le_succ _)
    · rw [if_neg hc]
      cases hr : splitOnChar sep (a' ++ sep :: b) with
      | nil => exact absurd hr (splitOnChar_ne_nil sep _)
      | cons h t =>
        rw [hr] at ih
        simp only [List.length_cons] at ih ⊢
        omega

/-- The fallback of `getLastD` is irrelevant on a nonempty list. -/
theorem getLastD_irrel {α : Type} :
    ∀ (l : List α), l ≠ [] → ∀ d d', l.getLastD d = l.getLastD d' := by
  intro l hl d d'
  cases l with
  | nil => exact absurd rfl hl
  | cons a t => rw [List.getLastD_cons, List.getLastD_cons]

/-- Python `s.split(sep)[-1]` when everything after the last separator is
separator-free: the final fragment. -/
theorem splitOnChar_getLast_after (sep : Char) (a b : List Char)
    (hb : ∀ c ∈ b, c ≠ sep) :
    (splitOnChar sep (a ++ sep :: b)).getLastD [] = b := by
  induction a with
  | nil =>
    simp only [List.nil_append, splitOnChar]
    rw [if_true, splitOnChar_all_ne sep b hb]
    rfl
  | cons c a' ih =>
    simp only [List.cons_append, splitOnChar]
    by_cases hc : c = sep
    · rw [if_pos hc, List.getLastD_cons]
      exact ih
    · rw [if_neg hc]
      cases hr : splitOnChar sep (a' ++ sep :: b) with
      | nil => exact absurd hr (splitOnChar_ne_nil sep _)
      | cons h t =>
        rw [hr] at ih
        rw [List.getLastD_cons] at ih ⊢
        cases t with
        | nil =>
          have h2 := splitOnChar_length2 sep a' b
          rw [hr] at h2
          simp at h2
        | cons u t' =>
          rw [getLastD_irrel (u :: t') (by simp) (c :: h) h]
          exact ih

/-- Python `s.split(sep)[0]` when the part before the first separator is
separator-free: the initial fragment. -/
theorem splitOnChar_head_before (sep : Char) (a b : List Char)
    (ha : ∀ c ∈ a, c ≠ sep) :
    (splitOnChar sep (a ++ sep :: b)).headD [] = a := by
  induction a with
  | nil =>
    simp only [List.nil_append, splitOnChar]
    rw [if_true]
    rfl
  | cons c a' ih =>
    have hc : c ≠ sep := ha c (List.mem_cons_self _ _)
    simp only [List.cons_append, splitOnChar]
    rw [if_neg hc]
    cases hr : splitOnChar sep (a' ++ sep :: b) with
    | nil => exact absurd hr (splitOnChar_ne_nil sep _)
    | cons h t =>
      have iht := ih (fun x hx => ha x (List.mem_cons_of_mem _ hx))
      rw [hr] at iht
      simp only [List.headD_cons] at iht ⊢
      rw [iht]

/-! ## Claim theorems: the URL resolver -/

/-- C7: a short-link URL `https://youtu.be/` ++ id ++ `?` ++ extra, with a
slash-free and question-mark-free identifier and a slash-free query string,
resolves to exactly the identifier: the final path segment with the
trailing query string stripped. -/
theorem getVideoId_shortlink (id extra : String)
    (hid1 : ∀ c ∈ id.data, c ≠ '/')
    (hid2 : ∀ c ∈ id.data, c ≠ '?')
    (hex : ∀ c ∈ extra.data, c ≠ '/') :
    get_video_id ("https://youtu.be/" ++ id ++ "?" ++ extra) = some id := by
  have hdata : ("https://youtu.be/" ++ id ++ "?" ++ extra).data
      = ['h', 't', 't', 'p', 's', ':', '/', '/', 'y', 'o', 'u', 't', 'u', '.', 'b', 'e']
          ++ '/' :: (id.data ++ '?' :: extra.data) := by
    have h1 : ("https://youtu.be/" : String).data
        = ['h', 't', 't', 'p', 's', ':', '/', '/', 'y', 'o', 'u', 't', 'u', '.', 'b',
           'e', '/'] := rfl
    have h2 : ("?" : String).data = ['?'] := rfl
    simp only [String.data_append, h1, h2, List.append_assoc, List.cons_append,
      List.nil_append]
  have hyb : containsSub "youtu.be".data
      ("https://youtu.be/" ++ id ++ "?" ++ extra).data = true := by
    rw [hdata]
    have hy : ("youtu.be" : String).data
        = ['y', 'o', 'u', 't', 'u', '.', 'b', 'e'] := rfl
    have hflat :
        (['h', 't', 't', 'p', 's', ':', '/', '/', 'y', 'o', 'u', 't', 'u', '.', 'b', 'e']
            ++ '/' :: (id.data ++ '?' :: extra.data) : List Char)
        = ['h', 't', 't', 'p', 's', ':', '/', '/']
            ++ ("youtu.be".data ++ ('/' :: (id.data ++ '?' :: extra.data))) := by
      simp only [hy, List.cons_append, List.nil_append]
    rw [hflat]
    exact containsSub_of_middle "youtu.be".data ['h', 't', 't', 'p', 's', ':', '/', '/']
      ('/' :: (id.data ++ '?' :: extra.data))
  have hB : ∀ c ∈ id.data ++ '?' :: extra.data, c ≠ '/' := by
    intro c hc
    rcases List.mem_append.mp hc with h | h
    · exact hid1 c h
    · rcases List.mem_cons.mp h with h | h
      · rw [h]; decide
      · exact hex c h
  have hse : shortExtract ("https://youtu.be/" ++ id ++ "?" ++ extra).data = id.data := by
    rw [hdata, shortExtract]
    rw [splitOnChar_getLast_after '/'
      ['h', 't', 't', 'p', 's', ':', '/', '/', 'y', 'o', 'u', 't', 'u', '.', 'b', 'e']
      (id.data ++ '?' :: extra.data) hB]
    exact splitOnChar_head_before '?' id.data extra.data hid2
  have hne : ("https://youtu.be/" ++ id ++ "?" ++ extra).data ≠ [] := by
    rw [hdata]; simp
  rw [get_video_id, if_neg hne, if_pos hyb, hse]

/-- C7 witness: a literal short-link URL with a time query. -/
theorem getVideoId_shortlink_witness :
    get_video_id "https://youtu.be/dQw4w9WgXcQ?t=30" = some "dQw4w9WgXcQ" := by
  have heq : ("https://youtu.be/dQw4w9WgXcQ?t=30" : String)
      = "https://youtu.be/" ++ "dQw4w9WgXcQ" ++ "?" ++ "t=30" := by decide
  rw [heq]
  exact getVideoId_shortlink "dQw4w9WgXcQ" "t=30" (by decide) (by decide) (by decide)

/-- C10: any input containing the youtu.be marker is resolved by the
short-link rule alone — the v parameter is never consulted — and always
yields a string, never the null result. -/
theorem getVideoId_shortlink_branch (url : String)
    (h : containsSub "youtu.be".data url.data = true) :
    get_video_id url = some ⟨shortExtract url.data⟩ := by
  have hne : url.data ≠ [] := by
    intro hn
    rw [hn] at h
    exact absurd h (by decide)
  rw [get_video_id, if_neg hne, if_pos h]

/-- C10 witness: a short link carrying a v parameter resolves by the path
rule (the v parameter is ignored), and a bare `youtu.be/` input yields the
empty string rather than the null result. -/
theorem getVideoId_shortlink_branch_witness :
    get_video_id "https://youtu.be/abc?v=zzz" = some "abc"
    ∧ get_video_id "youtu.be/" = some "" := by
  constructor
  · rw [getVideoId_shortlink_branch "https://youtu.be/abc?v=zzz" (by decide)]
    decide
  · rw [getVideoId_shortlink_branch "youtu.be/" (by decide)]
    decide

/-- C6: the resolver returns the null result on the empty input and on any
input matching neither shape: no youtu.be marker and no v= parameter match
anywhere in the string. -/
theorem getVideoId_malformed (url : String)
    (h : url.data = [] ∨ (containsSub "youtu.be".data url.data = false
        ∧ vmatch url.data = none)) :
    get_video_id url = none := by
  rcases h with h | ⟨h1, h2⟩
  · rw [get_video_id, if_pos h]
  · by_cases hn : url.data = []
    · rw [get_video_id, if_pos hn]
    · rw [get_video_id, if_neg hn, if_neg (by rw [h1]; simp), h2]

/-- C6 witness: a plain sentence and the empty string both resolve to the
null result. -/
theorem getVideoId_malformed_witness :
    get_video_id "hello world" = none ∧ get_video_id "" = none :=
  ⟨getVideoId_malformed "hello world" (Or.inr (by decide)),
   getVideoId_malformed "" (Or.inl (by decide))⟩
